import Mathlib

/-!
Shallow embedding of the ha-usms reconciliation engine
(`custom_components/ha-usms/coordinator.py`) and of the backfill /
recompute / cost services (`custom_components/ha-usms/services.py`).

Conventions:
* timestamps are integers counting minutes (one hour = 60, one day = 1440);
* consumption quantities and sums are rationals;
* a Python `dict[datetime, float]` is an insertion-ordered association
  list `List (Int × Rat)`;
* `USMSConsumptionHistoryNotFoundError` is `Option.none` on the fetched
  day;
* raising `UpdateFailed` / `HomeAssistantError` is `Except.error`.
-/

namespace HaUsms

/-- One hour, in minutes. -/
def hourMin : Int := 60

/-- One day, in minutes. -/
def dayMin : Int := 1440

/-- A statistic row as built by the integration: `start` timestamp,
`state` (the hourly consumption) and an optional `sum` (the running
total; absent in the not-yet-registered branch and in backfill rows). -/
structure StatRow where
  start : Int
  state : Rat
  sum : Option Rat
  deriving Repr, DecidableEq

/-- Python `dict` update of a single key: replace the value in place if
the key is present, otherwise append at the end (insertion order). -/
def dictInsert (d : List (Int × Rat)) (kv : Int × Rat) : List (Int × Rat) :=
  if d.any (fun p => p.1 = kv.1) then
    d.map (fun p => if p.1 = kv.1 then (p.1, kv.2) else p)
  else
    d ++ [kv]

/-- Python `d1.update(d2)`: fold `dictInsert` over `d2` in order. -/
def pyUpdate (d1 d2 : List (Int × Rat)) : List (Int × Rat) :=
  d2.foldl dictInsert d1

/-- Comparison of dict items by key, the order used by Python
`sorted(d.items())` on a dict (keys are distinct, so the key decides). -/
def keyLE (p q : Int × Rat) : Prop := p.1 ≤ q.1

instance : DecidableRel keyLE := fun p q => Int.decLe p.1 q.1

instance : IsTotal (Int × Rat) keyLE := ⟨fun p q => Int.le_total p.1 q.1⟩

instance : IsTrans (Int × Rat) keyLE := ⟨fun _ _ _ h h' => le_trans h h'⟩

/-- Python `sorted(d.items())`: stable sort of the items by key. -/
def sortByKey (l : List (Int × Rat)) : List (Int × Rat) :=
  l.insertionSort keyLE

/-- The registered-sensor loop of `_async_update_data`:
`for hourly, consumption in sorted(...): total += consumption;` emit
`{start: hourly - 1h, state: consumption, sum: total}`.
The argument list is the (already sorted) items. -/
def sumRows (total : Rat) : List (Int × Rat) → List StatRow
  | [] => []
  | (h, c) :: t =>
      ⟨h - hourMin, c, some (total + c)⟩ :: sumRows (total + c) t

/-- The not-yet-registered loop of `_async_update_data`:
`for hourly, consumption in hourly_consumptions.items():` emit
`{start: hourly - 1h, state: consumption}` (no sum), in dict order. -/
def stateRows (l : List (Int × Rat)) : List StatRow :=
  l.map (fun p => ⟨p.1 - hourMin, p.2, none⟩)

/-- Per-meter inputs of one refresh cycle. `updateSuccess` is the result
of `meter.update(True)`; `todayReadings` / `yesterdayReadings` are the
results of `meter.get_hourly_consumptions` for today resp. yesterday,
`none` meaning `USMSConsumptionHistoryNotFoundError` was raised. -/
structure MeterData where
  no : String
  updateSuccess : Bool
  todayReadings : Option (List (Int × Rat))
  yesterdayReadings : Option (List (Int × Rat))
  deriving DecidableEq

/-- The whole environment one `_async_update_data` call reads:
the account's meters, the clock, whether `self.data` is already
populated (truthy), which meter numbers have a registered sensor in
`self.meter_consumptions`, and the `sum` column the statistics-store
query returns for a meter's statistic id (empty list = no rows). -/
structure Env where
  meters : List MeterData
  latestUpdate : Int
  now : Int
  priorData : Bool
  registered : String → Bool
  baselineSums : String → List Rat

/-- Merging of the two fetched days, exactly as in the code: start from
today's dict (`{}` on a not-found error), then `.update` with
yesterday's dict when that fetch succeeded. -/
def mergeReadings (m : MeterData) : List (Int × Rat) :=
  let t := m.todayReadings.getD []
  match m.yesterdayReadings with
  | some ys => pyUpdate t ys
  | none => t

/-- The statistics list computed for one meter from its merged readings:
empty stays empty; a registered meter gets summed rows over the sorted
items on top of the queried baseline (`old_statistics[-1]["sum"]`, or 0
when the query returned nothing); an unregistered meter gets state-only
rows in dict order. -/
def rowsFor (env : Env) (no : String) (merged : List (Int × Rat)) : List StatRow :=
  if merged = [] then []
  else if env.registered no then
    sumRows (((env.baselineSums no).getLast?).getD 0) (sortByKey merged)
  else
    stateRows merged

/-- The per-meter statistics of the second loop of `_async_update_data`. -/
def processMeter (env : Env) (m : MeterData) : List StatRow :=
  rowsFor env m.no (mergeReadings m)

/-- The data payload of a successful cycle: `data[meter.no] = statistics`
for each meter, in meter order. -/
def mkData (env : Env) : List (String × List StatRow) :=
  env.meters.map (fun m => (m.no, processMeter env m))

/-- `HaUsmsDataUpdateCoordinator._async_update_data`: returns the final
`update_interval` (in minutes) together with either the data payload or
the `UpdateFailed` message.  Phase 1: every meter is force-updated, a
failure sets the interval to 5 minutes and raises.  Phase 2: the next
update is estimated one hour after the latest update and the interval
set to `next_update - now`.  Phase 3: a lapsed estimate resets the
interval to 5 minutes and raises, except on the first refresh
(`self.data` still falsy).  Phase 4: per-meter statistics. -/
def asyncUpdateData (env : Env) : Int × Except String (List (String × List StatRow)) :=
  if env.meters.any (fun m => !m.updateSuccess) then
    (5, Except.error "Error retrieving update. Retry in 5 minutes")
  else
    let nextUpdate := env.latestUpdate + hourMin
    let interval := nextUpdate - env.now
    if nextUpdate < env.now then
      if env.priorData then
        (5, Except.error "Time since last successful update lapsed. Retry in 5 minutes")
      else
        (5, Except.ok (mkData env))
    else
      (interval, Except.ok (mkData env))

/-! ### Backfill / recompute services (`services.py`) -/

/-- A backfill row for one reading: `{start: hourly - 1h, state}`. -/
def toStateRow (p : Int × Rat) : StatRow :=
  ⟨p.1 - hourMin, p.2, none⟩

/-- The `while iter_date >= start_date` loop of
`download_meter_consumption_history`, with the number of remaining loop
iterations made explicit as fuel (`end_date - start_date + 1` days).
Each available day's rows are put in front of the accumulator (the code
walks the day's items reversed and does `insert(0, ...)` for each); a
`USMSConsumptionHistoryNotFoundError` (`none`) breaks out of the loop. -/
def collectLoop (source : Int → Option (List (Int × Rat))) :
    Int → Nat → List StatRow → List StatRow
  | _, 0, acc => acc
  | iterDate, n + 1, acc =>
      match source iterDate with
      | none => acc
      | some hc => collectLoop source (iterDate - 1) n (hc.map toStateRow ++ acc)

/-- All historical state rows collected by a backfill from `endDate`
down to `startDate` (dates in days, `source` maps a day to its hourly
dict or `none` for history-not-found). -/
def backfillRows (source : Int → Option (List (Int × Rat)))
    (startDate endDate : Int) : List StatRow :=
  collectLoop source endDate (endDate - startDate + 1).toNat []

/-- The statistics store for one statistic id, reduced to the data the
services read and write: the `state` column keyed by `start`, kept
sorted by `start` ascending (`statistics_during_period` returns rows in
ascending start order). -/
abbrev Store := List (Int × Rat)

/-- `async_import_statistics` upsert of a single row by its `start` key
into the sorted store. -/
def insertUpsert (k : Int) (v : Rat) : Store → Store
  | [] => [(k, v)]
  | (k', v') :: t =>
      if k < k' then (k, v) :: (k', v') :: t
      else if k = k' then (k, v) :: t
      else (k', v') :: insertUpsert k v t

/-- `async_import_statistics` of a whole row list: upsert each row in
order. -/
def importStates (s : Store) (rows : List (Int × Rat)) : Store :=
  rows.foldl (fun s p => insertUpsert p.1 p.2 s) s

/-- The `(start, state)` projection of a row list, i.e. what importing
the rows writes into the store model. -/
def statesOf (rows : List StatRow) : List (Int × Rat) :=
  rows.map (fun r => (r.start, r.state))

/-- The recompute loop of `recalculate_meter_sum_statistics`:
`total = 0`, then for each persisted row (ascending) `total += state`
and emit `{start, state, sum: total}`. -/
def runRows (total : Rat) : Store → List StatRow
  | [] => []
  | (k, v) :: t => ⟨k, v, some (total + v)⟩ :: runRows (total + v) t

/-- `recalculate_meter_sum_statistics` for one statistic id: error when
the store query returns nothing, otherwise rebuild every `sum` as the
running total from 0 and re-import the corrected series.  Returns the
store after the call and the emitted rows (or the error). -/
def recalculate (store : Store) : Store × Except String (List StatRow) :=
  if store = [] then
    (store, Except.error "No statistical data found.")
  else
    let out := runRows 0 store
    (importStates store (statesOf out), Except.ok out)

/-- `download_meter_consumption_history` from the point where the dates
are resolved: collect the backfill rows, import them, then always
recalculate the sums. -/
def downloadHistory (source : Int → Option (List (Int × Rat)))
    (store : Store) (startDate endDate : Int) :
    Store × Except String (List StatRow) :=
  let rows := backfillRows source startDate endDate
  recalculate (importStates store (statesOf rows))

/-! ### Cost-calculation service (`services.py`) -/

/-- `sub` occurs as a contiguous sublist of the second argument. -/
def hasSubList (sub : List Char) : List Char → Bool
  | [] => sub.isEmpty
  | c :: t => sub.isPrefixOf (c :: t) || hasSubList sub t

/-- Python `s.lower()` restricted to ASCII-style per-character
lowering. -/
def toLowerStr (s : String) : String :=
  String.mk (s.data.map Char.toLower)

/-- Python `pat in s` on strings. -/
def strContainsSub (s pat : String) : Bool :=
  hasSubList pat.data s.data

/-- The body of `calculate_utility_cost_response_service` once
`consumption` and `meter_type` are bound: validate the utility type by
case-insensitive substring match, then compute the cost — the code
always calls `USMSMeter.calculate_cost(consumption, "Electricity")`,
whatever the validated type was.  `calc` stands for the external
`USMSMeter.calculate_cost`. -/
def calculateUtilityCost (calcCost : Rat → String → Rat) (consumption : Rat)
    (meterType : String) : Except String Rat :=
  let valid : Option String :=
    if strContainsSub (toLowerStr meterType) "electric" then some "Electricity"
    else if strContainsSub (toLowerStr meterType) "water" then some "Water"
    else none
  match valid with
  | none => Except.error "Meter type not valid."
  | some _ => Except.ok (calcCost consumption "Electricity")

/-- A value in a service call's data mapping. -/
inductive SVal where
  | num : Rat → SVal
  | str : String → SVal
  deriving DecidableEq

/-- A service call's data mapping (`service_call.data`). -/
abbrev ServiceData := List (String × SVal)

/-- Python dict lookup on service-call data. -/
def svLookup (k : String) : ServiceData → Option SVal
  | [] => none
  | (k', v) :: t => if k = k' then some v else svLookup k t

/-- `CALCULATE_COST_RESPONSE_SERVICE_SCHEMA`: voluptuous schema
requiring the key `"consumption"` (a float) and the key `"type"`
(a string), with no extra keys allowed (the `vol.Schema` default). -/
def schemaValid (d : ServiceData) : Bool :=
  (match svLookup "consumption" d with
   | some (SVal.num _) => true
   | _ => false) &&
  (match svLookup "type" d with
   | some (SVal.str _) => true
   | _ => false) &&
  d.all (fun kv => kv.1 == "consumption" || kv.1 == "type")

/-- `calculate_utility_cost_response_service` at the service-call level:
read `data["consumption"]`, then `data["meter_type"]` (a `KeyError`
when the key is absent), then validate and compute. -/
def costServiceCall (calcCost : Rat → String → Rat) (d : ServiceData) :
    Except String Rat :=
  match svLookup "consumption" d with
  | none => Except.error "KeyError: consumption"
  | some (SVal.str _) => Except.error "TypeError: consumption"
  | some (SVal.num q) =>
    match svLookup "meter_type" d with
    | none => Except.error "KeyError: meter_type"
    | some (SVal.num _) => Except.error "TypeError: meter_type"
    | some (SVal.str s) => calculateUtilityCost calcCost q s

/-! ### Auxiliary definitions for the verification -/

/-- The running totals produced by the sum-computing loop, on their own:
`accSums t l` is the list of values `total` takes after each item. -/
def accSums (total : Rat) : List (Int × Rat) → List Rat
  | [] => []
  | (_, c) :: tl => (total + c) :: accSums (total + c) tl

/-- Concrete refresh environment: one registered meter with two readings
today and a stored baseline, used to instantiate general theorems. -/
def envW1 : Env :=
  ⟨[⟨"m", true, some [(60, 2), (120, 3)], none⟩], 0, 0, false,
    fun _ => true, fun _ => [10]⟩

/-- The meter of `envW1`. -/
def meterW1 : MeterData := ⟨"m", true, some [(60, 2), (120, 3)], none⟩

/-- Concrete refresh environment: one not-yet-registered meter whose
today reading (hour bucket 1500 = day 1, hour 1) precedes, in dict
order, yesterday's reading (hour bucket 60 = day 0, hour 1). -/
def envW2 : Env :=
  ⟨[⟨"m", true, some [(1500, 5)], some [(60, 2)]⟩], 0, 0, false,
    fun _ => false, fun _ => []⟩

/-- Concrete refresh environment: the second meter's forced update
fails. -/
def envW3 : Env :=
  ⟨[⟨"a", true, some [(60, 1)], none⟩, ⟨"b", false, some [(120, 2)], none⟩],
    0, 0, true, fun _ => true, fun _ => [4]⟩

/-- Concrete refresh environment: all forced updates succeed but the
estimated next update time has lapsed, with prior data present. -/
def envW4 : Env :=
  ⟨[⟨"a", true, some [(60, 1)], none⟩], 0, 100, true,
    fun _ => true, fun _ => []⟩

/-- Concrete refresh environment: today's history is not found, only
yesterday's readings exist. -/
def envW5 : Env :=
  ⟨[⟨"a", true, none, some [(60, 1), (120, 2)]⟩, ⟨"b", true, none, none⟩],
    0, 0, false, fun _ => true, fun _ => []⟩

/-- First meter of `envW5`. -/
def meterW5 : MeterData := ⟨"a", true, none, some [(60, 1), (120, 2)]⟩

/-- The environment of the C6 scenario: readings `{1: 2.0, 2: 3.0,
3: 1.5}` for today (hour buckets 60, 120, 180), baseline sum `10.0`
queried from the store, sensor registered. -/
def envW6 : Env :=
  ⟨[⟨"m", true, some [(60, 2), (120, 3), (180, 3 / 2)], none⟩], 0, 0, false,
    fun _ => true, fun _ => [10]⟩

/-- Strict comparison of store rows by `start` key. -/
def keyLT (p q : Int × Rat) : Prop := p.1 < q.1

instance : IsTrans (Int × Rat) keyLT := ⟨fun _ _ _ h h' => lt_trans h h'⟩

/-- The store invariant: rows strictly ascending by `start` (rows are
keyed by hour bucket, so keys are distinct and the query returns them
in ascending order). -/
def strictStore (s : Store) : Prop := List.Chain' keyLT s

/-- First-occurrence lookup of a key in a store (the value the store
holds for that `start`). -/
def alookup (k : Int) : Store → Option Rat
  | [] => none
  | (k', v) :: t => if k = k' then some v else alookup k t

/-- Last-occurrence lookup in a row list: the value the last upsert for
that key wrote. -/
def rlookup (k : Int) : List (Int × Rat) → Option Rat
  | [] => none
  | (k', v) :: t =>
    match rlookup k t with
    | some v' => some v'
    | none => if k = k' then some v else none

/-- Concrete backfill source: only day 1 is available, with one reading
at hour bucket 1500 (= day 1, hour 1); every other day raises
history-not-found. -/
def srcW7 : Int → Option (List (Int × Rat)) :=
  fun d => if d = 1 then some [(1500, 2)] else none

/-- Concrete backfill source for the idempotence scenario: day 0 has
one reading at hour bucket 60. -/
def srcW8 : Int → Option (List (Int × Rat)) :=
  fun d => if d = 0 then some [(60, 1)] else none

/-- Concrete pre-existing store for the idempotence scenario. -/
def storeW8 : Store := [(-10, 2)]

/-! ### Lemmas about sorting and the sum-computing loop -/

theorem sortByKey_mem {p : Int × Rat} {l : List (Int × Rat)} :
    p ∈ sortByKey l ↔ p ∈ l :=
  (List.perm_insertionSort keyLE l).mem_iff

theorem sortByKey_eq_nil {l : List (Int × Rat)} :
    sortByKey l = [] ↔ l = [] := by
  constructor
  · intro h
    have hp := (List.perm_insertionSort keyLE l).symm
    rw [sortByKey] at h
    rw [h] at hp
    exact hp.eq_nil
  · intro h
    rw [h]
    rfl

theorem sortByKey_sorted (l : List (Int × Rat)) :
    List.Sorted keyLE (sortByKey l) :=
  List.sorted_insertionSort keyLE l

theorem sumRows_map_start (t : Rat) (l : List (Int × Rat)) :
    (sumRows t l).map StatRow.start = l.map (fun p => p.1 - hourMin) := by
  induction l generalizing t with
  | nil => rfl
  | cons a tl ih =>
    obtain ⟨k, c⟩ := a
    simp [sumRows, ih]

theorem sumRows_map_state (t : Rat) (l : List (Int × Rat)) :
    (sumRows t l).map StatRow.state = l.map Prod.snd := by
  induction l generalizing t with
  | nil => rfl
  | cons a tl ih =>
    obtain ⟨k, c⟩ := a
    simp [sumRows, ih]

theorem sumRows_filterMap_sum (t : Rat) (l : List (Int × Rat)) :
    (sumRows t l).filterMap StatRow.sum = accSums t l := by
  induction l generalizing t with
  | nil => rfl
  | cons a tl ih =>
    obtain ⟨k, c⟩ := a
    simp [sumRows, accSums, ih]

theorem accSums_chain (t : Rat) (l : List (Int × Rat))
    (h : ∀ p ∈ l, 0 ≤ p.2) : List.Chain' (· ≤ ·) (accSums t l) := by
  induction l generalizing t with
  | nil => simp [accSums]
  | cons a tl ih =>
    obtain ⟨k, c⟩ := a
    rw [accSums, List.chain'_cons']
    refine ⟨?_, ih (t + c) (fun p hp => h p (List.mem_cons_of_mem _ hp))⟩
    intro y hy
    cases tl with
    | nil => simp [accSums] at hy
    | cons b tl2 =>
      obtain ⟨k2, c2⟩ := b
      simp [accSums] at hy
      have hc2 : 0 ≤ c2 := h (k2, c2) (by simp)
      subst hy
      linarith

theorem accSums_getLast? (t : Rat) (l : List (Int × Rat)) (h : l ≠ []) :
    (accSums t l).getLast? = some (t + (l.map Prod.snd).sum) := by
  induction l generalizing t with
  | nil => exact absurd rfl h
  | cons a tl ih =>
    obtain ⟨k, c⟩ := a
    cases tl with
    | nil => simp [accSums]
    | cons b tl2 =>
      obtain ⟨k2, c2⟩ := b
      show ((t + c) :: (t + c + c2) :: accSums (t + c + c2) tl2).getLast? = _
      rw [List.getLast?_cons_cons]
      have hih := ih (t := t + c) (List.cons_ne_nil _ _)
      rw [show ((t + c + c2) :: accSums (t + c + c2) tl2) =
            accSums (t + c) ((k2, c2) :: tl2) from rfl]
      rw [hih]
      simp
      ring

theorem processMeter_registered (env : Env) (m : MeterData)
    (hreg : env.registered m.no = true) (hne : mergeReadings m ≠ []) :
    processMeter env m =
      sumRows (((env.baselineSums m.no).getLast?).getD 0)
        (sortByKey (mergeReadings m)) := by
  unfold processMeter rowsFor
  rw [if_neg hne, if_pos hreg]

/-! ### Claim theorems -/

/-- C1: for every non-empty merged hourly-reading sequence with
non-negative consumption values processed by the sum-computing
(registered-sensor) branch, the emitted rows' `sum` values are
monotonically non-decreasing, and the last row's `sum` equals the
queried baseline total (0 when the store returned no prior rows) plus
the sum of all emitted `state` values. -/
theorem spec_c1_registered_sums (env : Env) (m : MeterData)
    (hreg : env.registered m.no = true)
    (hne : mergeReadings m ≠ [])
    (hpos : ∀ p ∈ mergeReadings m, 0 ≤ p.2) :
    List.Chain' (· ≤ ·) ((processMeter env m).filterMap StatRow.sum) ∧
    ((processMeter env m).filterMap StatRow.sum).getLast? =
      some ((((env.baselineSums m.no).getLast?).getD 0) +
        ((processMeter env m).map StatRow.state).sum) := by
  rw [processMeter_registered env m hreg hne]
  constructor
  · rw [sumRows_filterMap_sum]
    exact accSums_chain _ _ (fun p hp => hpos p (sortByKey_mem.mp hp))
  · rw [sumRows_filterMap_sum, sumRows_map_state,
      accSums_getLast? _ _ (fun h => hne (sortByKey_eq_nil.mp h))]

theorem spec_c1_witness :
    List.Chain' (· ≤ ·) ((processMeter envW1 meterW1).filterMap StatRow.sum) ∧
    ((processMeter envW1 meterW1).filterMap StatRow.sum).getLast? =
      some ((((envW1.baselineSums meterW1.no).getLast?).getD 0) +
        ((processMeter envW1 meterW1).map StatRow.state).sum) :=
  spec_c1_registered_sums envW1 meterW1 rfl (by decide) (by decide)

/-- C2 (amended): the rows emitted for a meter are ordered by `start`
ascending in the registered-sensor branch (the code sorts the merged
items); in the not-yet-registered branch the rows follow the merged
dict's insertion order (today's readings first, then yesterday's new
keys), which is not necessarily ascending. -/
theorem spec_c2_amended (env : Env) (m : MeterData) :
    (env.registered m.no = true →
      List.Chain' (· ≤ ·) ((processMeter env m).map StatRow.start)) ∧
    (env.registered m.no = false →
      processMeter env m =
        if mergeReadings m = [] then [] else stateRows (mergeReadings m)) := by
  constructor
  · intro hreg
    by_cases hne : mergeReadings m = []
    · simp [processMeter, rowsFor, hne]
    · rw [processMeter_registered env m hreg hne, sumRows_map_start]
      have hc : List.Chain' keyLE (sortByKey (mergeReadings m)) :=
        (sortByKey_sorted (mergeReadings m)).chain'
      exact (List.chain'_map _).mpr
        (hc.imp (fun a b hab => by
          simpa using sub_le_sub_right (hab : a.1 ≤ b.1) hourMin))
  · intro hreg
    by_cases hne : mergeReadings m = []
    · simp [processMeter, rowsFor, hne]
    · simp [processMeter, rowsFor, hne, hreg]

theorem spec_c2_witness :
    List.Chain' (· ≤ ·) ((processMeter envW1 meterW1).map StatRow.start) :=
  (spec_c2_amended envW1 meterW1).1 rfl

/-- C2 (counterexample): with a not-yet-registered meter whose today
reading (hour bucket 1500) precedes yesterday's reading (hour bucket
60) in dict order, the refresh cycle emits the rows in that order and
their `start` values are not ascending. -/
theorem spec_c2_counterexample :
    (asyncUpdateData envW2).2 =
      Except.ok [("m", [⟨1440, 5, none⟩, ⟨0, 2, none⟩])] ∧
    ¬ List.Chain' (· ≤ ·)
      (([⟨1440, 5, none⟩, ⟨0, 2, none⟩] : List StatRow).map StatRow.start) := by
  refine ⟨rfl, fun h => ?_⟩
  rw [List.map_cons, List.map_cons, List.map_nil, List.chain'_cons] at h
  exact absurd h.1 (by decide)

/-- C3: if the forced update fails for any one meter, the refresh cycle
sets the update interval to 5 minutes and fails with `UpdateFailed`;
the result carries no data, so no statistic rows are emitted for any
meter in that cycle. -/
theorem spec_c3_forced_update_failure (env : Env) (m : MeterData)
    (hm : m ∈ env.meters) (hf : m.updateSuccess = false) :
    asyncUpdateData env =
      (5, Except.error "Error retrieving update. Retry in 5 minutes") := by
  unfold asyncUpdateData
  have hany : env.meters.any (fun m => !m.updateSuccess) = true :=
    List.any_eq_true.mpr ⟨m, hm, by rw [hf]; rfl⟩
  rw [hany]
  rfl

theorem spec_c3_witness :
    asyncUpdateData envW3 =
      (5, Except.error "Error retrieving update. Retry in 5 minutes") :=
  spec_c3_forced_update_failure envW3 ⟨"b", false, some [(120, 2)], none⟩
    (by decide) rfl

/-- C4: when the estimated next update time (latest update plus 1 hour)
has already lapsed, the cycle sets the update interval to 5 minutes,
and it raises `UpdateFailed` if and only if prior data exists
(`self.data` truthy); on the first refresh it proceeds without
failing. -/
theorem spec_c4_lapsed_next_update (env : Env)
    (hsucc : ∀ m ∈ env.meters, m.updateSuccess = true)
    (hlapse : env.latestUpdate + hourMin < env.now) :
    (asyncUpdateData env).1 = 5 ∧
      ((∃ e, (asyncUpdateData env).2 = Except.error e) ↔
        env.priorData = true) := by
  have hany : env.meters.any (fun m => !m.updateSuccess) = false := by
    rw [List.any_eq_false]
    intro m hm
    rw [hsucc m hm]
    decide
  cases hp : env.priorData with
  | false => simp [asyncUpdateData, hany, hlapse, hp]
  | true =>
    refine ⟨?_, fun _ => rfl, fun _ => ?_⟩
    · simp [asyncUpdateData, hany, hlapse, hp]
    · refine ⟨"Time since last successful update lapsed. Retry in 5 minutes", ?_⟩
      simp [asyncUpdateData, hany, hlapse, hp]

theorem spec_c4_witness :
    (asyncUpdateData envW4).1 = 5 ∧
      ((∃ e, (asyncUpdateData envW4).2 = Except.error e) ↔
        envW4.priorData = true) :=
  spec_c4_lapsed_next_update envW4 (by decide) (by decide)

theorem pyUpdate_disjoint (ys : List (Int × Rat)) :
    ∀ acc : List (Int × Rat), (ys.map Prod.fst).Nodup →
      (∀ p ∈ ys, ∀ q ∈ acc, p.1 ≠ q.1) →
      pyUpdate acc ys = acc ++ ys := by
  induction ys with
  | nil => intro acc _ _; simp [pyUpdate]
  | cons a tl ih =>
    intro acc hnd hdisj
    have h1 : dictInsert acc a = acc ++ [a] := by
      unfold dictInsert
      rw [if_neg]
      simp only [List.any_eq_true, decide_eq_true_eq]
      rintro ⟨q, hq, hqa⟩
      exact hdisj a (List.mem_cons_self a tl) q hq hqa.symm
    have h2 : pyUpdate acc (a :: tl) = pyUpdate (dictInsert acc a) tl := rfl
    rw [List.map_cons] at hnd
    rw [h2, h1]
    rw [ih (acc ++ [a]) (List.nodup_cons.mp hnd).2 ?_]
    · simp
    · intro p hp q hq
      rcases List.mem_append.mp hq with hq | hq
      · exact hdisj p (List.mem_cons_of_mem _ hp) q hq
      · rw [List.mem_singleton.mp hq]
        intro hpe
        exact (List.nodup_cons.mp hnd).1 (by
          rw [← hpe]
          exact List.mem_map_of_mem Prod.fst hp)

theorem asyncUpdateData_ok (env : Env)
    (hsucc : ∀ m ∈ env.meters, m.updateSuccess = true)
    (hfresh : env.latestUpdate + hourMin < env.now → env.priorData = false) :
    (asyncUpdateData env).2 = Except.ok (mkData env) := by
  have hany : env.meters.any (fun m => !m.updateSuccess) = false := by
    rw [List.any_eq_false]
    intro m hm
    rw [hsucc m hm]
    decide
  by_cases hl : env.latestUpdate + hourMin < env.now
  · simp [asyncUpdateData, hany, hl, hfresh hl]
  · simp [asyncUpdateData, hany, hl]

/-- C5: when today's history raises `ConsumptionHistoryNotFound` but
yesterday's readings exist, the cycle still succeeds and that meter's
payload is built from yesterday's readings alone; when the combined
readings are empty, the meter's payload is the empty list and the
cycle's payload still has an entry for the meter (processing
continued). -/
theorem spec_c5_history_not_found (env : Env) (m : MeterData)
    (ys : List (Int × Rat)) (hm : m ∈ env.meters)
    (hsucc : ∀ m' ∈ env.meters, m'.updateSuccess = true)
    (hfresh : env.latestUpdate + hourMin < env.now → env.priorData = false) :
    ∃ d, (asyncUpdateData env).2 = Except.ok d ∧
      (m.todayReadings = none → m.yesterdayReadings = some ys →
        (ys.map Prod.fst).Nodup → (m.no, rowsFor env m.no ys) ∈ d) ∧
      (mergeReadings m = [] → (m.no, ([] : List StatRow)) ∈ d) := by
  refine ⟨mkData env, asyncUpdateData_ok env hsucc hfresh, ?_, ?_⟩
  · intro ht hy hnd
    have hmerge : mergeReadings m = ys := by
      unfold mergeReadings
      rw [ht, hy]
      show pyUpdate [] ys = ys
      rw [pyUpdate_disjoint ys [] hnd (by intro p _ q hq; simp at hq)]
      rfl
    have hpm : processMeter env m = rowsFor env m.no ys := by
      unfold processMeter
      rw [hmerge]
    rw [← hpm]
    exact List.mem_map_of_mem _ hm
  · intro hmerge
    have hpm : processMeter env m = [] := by
      unfold processMeter
      rw [hmerge]
      simp [rowsFor]
    rw [← hpm]
    exact List.mem_map_of_mem _ hm

theorem spec_c5_witness :
    ∃ d, (asyncUpdateData envW5).2 = Except.ok d ∧
      (meterW5.todayReadings = none →
        meterW5.yesterdayReadings = some [(60, 1), (120, 2)] →
        (([(60, 1), (120, 2)] : List (Int × Rat)).map Prod.fst).Nodup →
        (meterW5.no, rowsFor envW5 meterW5.no [(60, 1), (120, 2)]) ∈ d) ∧
      (mergeReadings meterW5 = [] → (meterW5.no, ([] : List StatRow)) ∈ d) :=
  spec_c5_history_not_found envW5 meterW5 [(60, 1), (120, 2)]
    (by decide) (by decide) (by decide)

/-- C6: given merged hourly readings `{1: 2.0, 2: 3.0, 3: 1.5}` (hour
buckets 60, 120, 180 minutes) and a queried baseline sum of `10.0` for
a registered meter, the cycle emits exactly the rows
`[(start=0, state=2, sum=12), (start=60, state=3, sum=15),
(start=120, state=1.5, sum=16.5)]`, each `start` one hour before the
reading's hour bucket. -/
theorem spec_c6_scenario :
    asyncUpdateData envW6 =
      (60, Except.ok [("m",
        [⟨0, 2, some 12⟩, ⟨60, 3, some 15⟩,
         ⟨120, 3 / 2, some (33 / 2)⟩])]) := by
  norm_num [asyncUpdateData, envW6, mkData, processMeter, mergeReadings, rowsFor,
    sortByKey, List.insertionSort, List.orderedInsert, keyLE, sumRows, hourMin]
  exact fun h => absurd h (List.cons_ne_nil _ _)

/-! ### Lemmas about the backfill loop -/

theorem collectLoop_stopped (source : Int → Option (List (Int × Rat)))
    (d0 : Int) (hmiss : source d0 = none) :
    ∀ (n : Nat) (iter : Int) (acc : List StatRow), d0 ≤ iter →
      (iter - d0).toNat ≤ n →
      collectLoop source iter n acc =
        collectLoop source iter (iter - d0).toNat acc := by
  intro n
  induction n with
  | zero =>
    intro iter acc _ hn
    rw [Nat.le_zero.mp hn]
  | succ n ih =>
    intro iter acc hle hn
    rcases hsrc : source iter with _ | hc
    · have l1 : collectLoop source iter (n + 1) acc = acc := by
        simp [collectLoop, hsrc]
      cases hk : (iter - d0).toNat with
      | zero => rw [l1]; rfl
      | succ k => rw [l1]; simp [collectLoop, hsrc]
    · have hne : iter ≠ d0 := by
        intro h
        rw [h, hmiss] at hsrc
        cases hsrc
      have hgt : d0 < iter := lt_of_le_of_ne hle (Ne.symm hne)
      have hk : (iter - d0).toNat = ((iter - 1) - d0).toNat + 1 := by omega
      rw [hk]
      simp only [collectLoop, hsrc]
      exact ih (iter - 1) (hc.map toStateRow ++ acc) (by omega) (by omega)

theorem collectLoop_sum_none (source : Int → Option (List (Int × Rat))) :
    ∀ (n : Nat) (iter : Int) (acc : List StatRow),
      (∀ r ∈ acc, r.sum = none) →
      ∀ r ∈ collectLoop source iter n acc, r.sum = none := by
  intro n
  induction n with
  | zero => intro iter acc hacc; exact hacc
  | succ n ih =>
    intro iter acc hacc
    rcases hsrc : source iter with _ | hc
    · simpa [collectLoop, hsrc] using hacc
    · simp only [collectLoop, hsrc]
      apply ih
      intro r hr
      rcases List.mem_append.mp hr with hr | hr
      · obtain ⟨p, _, rfl⟩ := List.mem_map.mp hr
        rfl
      · exact hacc r hr

theorem collectLoop_ascending (source : Int → Option (List (Int × Rat)))
    (H : ∀ d hc, source d = some hc →
      List.Chain' keyLE hc ∧
      ∀ p ∈ hc, dayMin * d + hourMin ≤ p.1 ∧ p.1 ≤ dayMin * d + dayMin) :
    ∀ (n : Nat) (iter : Int) (acc : List StatRow),
      List.Chain' (· ≤ ·) (acc.map StatRow.start) →
      (∀ r ∈ acc, dayMin * (iter + 1) ≤ r.start) →
      List.Chain' (· ≤ ·)
        ((collectLoop source iter n acc).map StatRow.start) := by
  intro n
  induction n with
  | zero => intro iter acc hch _; exact hch
  | succ n ih =>
    intro iter acc hch hbd
    rcases hsrc : source iter with _ | hc
    · simpa [collectLoop, hsrc] using hch
    · simp only [collectLoop, hsrc]
      obtain ⟨hday_chain, hday_bd⟩ := H iter hc hsrc
      have hstarts : (hc.map toStateRow).map StatRow.start =
          hc.map (fun p => p.1 - hourMin) := by
        simp [toStateRow]
      apply ih (iter - 1)
      · rw [List.map_append, List.chain'_append]
        refine ⟨?_, hch, ?_⟩
        · rw [hstarts]
          exact (List.chain'_map _).mpr
            (hday_chain.imp (fun a b hab => sub_le_sub_right hab _))
        · intro x hx y hy
          have hx' : x ∈ (hc.map toStateRow).map StatRow.start := by
            obtain ⟨hne, hxeq⟩ := List.mem_getLast?_eq_getLast hx
            rw [hxeq]
            exact List.getLast_mem hne
          have hy' : y ∈ acc.map StatRow.start := by
            cases hacc : acc.map StatRow.start with
            | nil => rw [hacc] at hy; cases hy
            | cons a t =>
              rw [hacc] at hy
              rw [List.head?_cons] at hy
              rw [show y = a from (by simpa using hy : a = y).symm]
              exact List.mem_cons_self a t
          rw [hstarts] at hx'
          obtain ⟨p, hp, rfl⟩ := List.mem_map.mp hx'
          obtain ⟨r, hr, rfl⟩ := List.mem_map.mp hy'
          have h1 := (hday_bd p hp).2
          have h2 := hbd r hr
          simp only [dayMin, hourMin] at h1 h2 ⊢
          omega
      · intro r hr
        rcases List.mem_append.mp hr with hr | hr
        · obtain ⟨p, hp, rfl⟩ := List.mem_map.mp hr
          have h1 := (hday_bd p hp).1
          simp only [toStateRow, dayMin, hourMin] at h1 ⊢
          omega
        · have h2 := hbd r hr
          simp only [dayMin] at h2 ⊢
          omega

/-- C7: backfill walks days descending and stops entirely at the first
missing day (removing a missing day `d0` from the range changes
nothing, so only the days above it contribute); the collected rows are
state-only and ascending by time (given per-day readings that are
in-day ascending and bounded inside their day); the service imports
them and always follows with the full sum recompute. -/
theorem spec_c7_backfill (source : Int → Option (List (Int × Rat)))
    (startD endD : Int) (store : Store)
    (H : ∀ d hc, source d = some hc →
      List.Chain' keyLE hc ∧
      ∀ p ∈ hc, dayMin * d + hourMin ≤ p.1 ∧ p.1 ≤ dayMin * d + dayMin) :
    (∀ d0, source d0 = none → startD ≤ d0 → d0 ≤ endD →
      backfillRows source startD endD = backfillRows source (d0 + 1) endD) ∧
    List.Chain' (· ≤ ·) ((backfillRows source startD endD).map StatRow.start) ∧
    (∀ r ∈ backfillRows source startD endD, r.sum = none) ∧
    downloadHistory source store startD endD =
      recalculate
        (importStates store (statesOf (backfillRows source startD endD))) := by
  refine ⟨?_, ?_, ?_, rfl⟩
  · intro d0 hmiss h1 h2
    unfold backfillRows
    rw [collectLoop_stopped source d0 hmiss (endD - startD + 1).toNat endD []
      h2 (by omega)]
    rw [collectLoop_stopped source d0 hmiss (endD - (d0 + 1) + 1).toNat endD []
      h2 (by omega)]
  · exact collectLoop_ascending source H _ endD [] (by simp) (by simp)
  · exact collectLoop_sum_none source _ endD [] (by simp)

theorem spec_c7_witness :
    (∀ d0, srcW7 d0 = none → 0 ≤ d0 → d0 ≤ 1 →
      backfillRows srcW7 0 1 = backfillRows srcW7 (d0 + 1) 1) ∧
    List.Chain' (· ≤ ·) ((backfillRows srcW7 0 1).map StatRow.start) ∧
    (∀ r ∈ backfillRows srcW7 0 1, r.sum = none) ∧
    downloadHistory srcW7 storeW8 0 1 =
      recalculate
        (importStates storeW8 (statesOf (backfillRows srcW7 0 1))) := by
  apply spec_c7_backfill srcW7 0 1 storeW8
  intro d hc h
  by_cases hd : d = 1
  · subst hd
    rw [show srcW7 1 = some [(1500, 2)] from rfl] at h
    obtain rfl : [((1500 : Int), (2 : Rat))] = hc := Option.some.inj h
    refine ⟨List.chain'_singleton _, ?_⟩
    intro p hp
    rw [List.mem_singleton.mp hp]
    simp [dayMin, hourMin]
  · rw [show srcW7 d = none from if_neg hd] at h
    cases h

/-! ### Lemmas about the statistics store -/

theorem insertUpsert_ne_nil (k : Int) (v : Rat) (s : Store) :
    insertUpsert k v s ≠ [] := by
  cases s with
  | nil => simp [insertUpsert]
  | cons a t =>
    obtain ⟨k', v'⟩ := a
    unfold insertUpsert
    split_ifs <;> simp

theorem importStates_eq_nil {s : Store} {r : List (Int × Rat)} :
    importStates s r = [] → s = [] ∧ r = [] := by
  induction r generalizing s with
  | nil => exact fun h => ⟨h, rfl⟩
  | cons a tl ih =>
    intro h
    have h2 : importStates (insertUpsert a.1 a.2 s) tl = [] := h
    exact absurd (ih h2).1 (insertUpsert_ne_nil a.1 a.2 s)

theorem alookup_insertUpsert (k k' : Int) (v : Rat) (s : Store) :
    alookup k (insertUpsert k' v s) =
      if k = k' then some v else alookup k s := by
  induction s with
  | nil =>
    unfold insertUpsert alookup
    by_cases h : k = k' <;> simp [h, alookup]
  | cons a t ih =>
    obtain ⟨k0, v0⟩ := a
    unfold insertUpsert
    rcases lt_trichotomy k' k0 with h | h | h
    · rw [if_pos h]
      rfl
    · rw [if_neg (by omega), if_pos h]
      subst h
      show (if k = k' then some v else alookup k t) = _
      by_cases hk : k = k' <;> simp [hk, alookup]
    · rw [if_neg (by omega), if_neg (by omega)]
      show (if k = k0 then some v0 else alookup k (insertUpsert k' v t)) = _
      rw [ih]
      by_cases hk0 : k = k0
      · rw [if_pos hk0, if_neg (by omega)]
        simp [alookup, hk0]
      · rw [if_neg hk0]
        by_cases hk' : k = k'
        · rw [if_pos hk', if_pos hk']
        · rw [if_neg hk', if_neg hk']
          simp [alookup, hk0]

theorem insertUpsert_head_cases (k : Int) (v : Rat) (s : Store) :
    ∀ y ∈ (insertUpsert k v s).head?, y = (k, v) ∨ y ∈ s.head? := by
  cases s with
  | nil =>
    intro y hy
    left
    exact ((by simpa [insertUpsert] using hy : (k, v) = y)).symm
  | cons a t =>
    obtain ⟨k0, v0⟩ := a
    intro y hy
    unfold insertUpsert at hy
    split_ifs at hy
    · left; exact ((by simpa using hy : (k, v) = y)).symm
    · left; exact ((by simpa using hy : (k, v) = y)).symm
    · right; simpa using hy

theorem strictStore_insertUpsert (k : Int) (v : Rat) {s : Store}
    (hs : strictStore s) : strictStore (insertUpsert k v s) := by
  induction s with
  | nil => simp [insertUpsert, strictStore]
  | cons a t ih =>
    obtain ⟨k0, v0⟩ := a
    have ht : strictStore t := (List.chain'_cons'.mp hs).2
    have hhd := (List.chain'_cons'.mp hs).1
    unfold insertUpsert
    split_ifs with h1 h2
    · exact List.chain'_cons'.mpr ⟨by
        intro y hy
        rw [List.head?_cons] at hy
        rw [show y = (k0, v0) from ((by simpa using hy : (k0, v0) = y)).symm]
        exact h1, hs⟩
    · exact List.chain'_cons'.mpr ⟨by
        intro y hy
        have := hhd y hy
        unfold keyLT at this ⊢
        omega, ht⟩
    · refine List.chain'_cons'.mpr ⟨?_, ih ht⟩
      intro y hy
      rcases insertUpsert_head_cases k v t y hy with rfl | hy'
      · unfold keyLT
        omega
      · exact hhd y hy'

theorem strictStore_importStates {s : Store} (r : List (Int × Rat))
    (hs : strictStore s) : strictStore (importStates s r) := by
  induction r generalizing s with
  | nil => exact hs
  | cons a tl ih => exact ih (strictStore_insertUpsert a.1 a.2 hs)

theorem alookup_importStates (k : Int) :
    ∀ (r : List (Int × Rat)) (s : Store),
      alookup k (importStates s r) =
        match rlookup k r with
        | some v => some v
        | none => alookup k s := by
  intro r
  induction r with
  | nil => intro s; rfl
  | cons a tl ih =>
    intro s
    have h1 : importStates s (a :: tl) = importStates (insertUpsert a.1 a.2 s) tl := rfl
    rw [h1, ih]
    show _ = (match rlookup k (a :: tl) with
      | some v => some v
      | none => alookup k s)
    rw [show rlookup k (a :: tl) =
        (match rlookup k tl with
         | some v' => some v'
         | none => if k = a.1 then some a.2 else none) from rfl]
    cases hrl : rlookup k tl with
    | some v' => rfl
    | none =>
      rw [alookup_insertUpsert]
      by_cases hk : k = a.1 <;> simp [hk]

theorem strictStore_key_bound {k0 : Int} {v0 : Rat} {t : Store}
    (h : strictStore ((k0, v0) :: t)) : ∀ p ∈ t, k0 < p.1 := by
  have hp : List.Pairwise keyLT ((k0, v0) :: t) :=
    List.chain'_iff_pairwise.mp h
  intro p hmem
  exact (List.pairwise_cons.mp hp).1 p hmem

theorem alookup_none_of_lt {k : Int} {l : Store}
    (h : ∀ p ∈ l, k < p.1) : alookup k l = none := by
  induction l with
  | nil => rfl
  | cons a t ih =>
    obtain ⟨k0, v0⟩ := a
    show (if k = k0 then some v0 else alookup k t) = none
    rw [if_neg (by
      have := h (k0, v0) (List.mem_cons_self _ _)
      omega)]
    exact ih (fun p hp => h p (List.mem_cons_of_mem _ hp))

theorem strictStore_ext : ∀ {s t : Store}, strictStore s → strictStore t →
    (∀ k, alookup k s = alookup k t) → s = t := by
  intro s
  induction s with
  | nil =>
    intro t _ _ h
    cases t with
    | nil => rfl
    | cons a t' =>
      obtain ⟨k2, v2⟩ := a
      have := h k2
      rw [show alookup k2 ((k2, v2) :: t') = some v2 from by
        simp [alookup]] at this
      cases this
  | cons a s' ih =>
    intro t hs ht h
    obtain ⟨k, v⟩ := a
    cases t with
    | nil =>
      have := h k
      rw [show alookup k ((k, v) :: s') = some v from by simp [alookup]] at this
      cases this
    | cons b t' =>
      obtain ⟨k2, v2⟩ := b
      have hk : k = k2 := by
        rcases lt_trichotomy k k2 with hlt | heq | hgt
        · exfalso
          have h1 : alookup k ((k2, v2) :: t') = none := by
            apply alookup_none_of_lt
            intro p hp
            rcases List.mem_cons.mp hp with rfl | hp'
            · exact hlt
            · exact lt_trans hlt (strictStore_key_bound ht p hp')
          have h2 := h k
          rw [h1, show alookup k ((k, v) :: s') = some v from by
            simp [alookup]] at h2
          cases h2
        · exact heq
        · exfalso
          have h1 : alookup k2 ((k, v) :: s') = none := by
            apply alookup_none_of_lt
            intro p hp
            rcases List.mem_cons.mp hp with rfl | hp'
            · exact hgt
            · exact lt_trans hgt (strictStore_key_bound hs p hp')
          have h2 := h k2
          rw [h1, show alookup k2 ((k2, v2) :: t') = some v2 from by
            simp [alookup]] at h2
          cases h2
      subst hk
      have hv : v = v2 := by
        have h2 := h k
        rw [show alookup k ((k, v) :: s') = some v from by simp [alookup],
          show alookup k ((k, v2) :: t') = some v2 from by simp [alookup]] at h2
        exact Option.some.inj h2
      subst hv
      have htails : ∀ k', alookup k' s' = alookup k' t' := by
        intro k'
        by_cases hk' : k' = k
        · subst hk'
          rw [alookup_none_of_lt (strictStore_key_bound hs),
            alookup_none_of_lt (strictStore_key_bound ht)]
        · have h2 := h k'
          rw [show alookup k' ((k, v) :: s') = alookup k' s' from by
            simp [alookup, hk'],
            show alookup k' ((k, v) :: t') = alookup k' t' from by
            simp [alookup, hk']] at h2
          exact h2
      rw [ih (List.chain'_cons'.mp hs).2 (List.chain'_cons'.mp ht).2 htails]

theorem rlookup_eq_alookup {l : Store} (k : Int) (h : strictStore l) :
    rlookup k l = alookup k l := by
  induction l with
  | nil => rfl
  | cons a t ih =>
    obtain ⟨k0, v0⟩ := a
    have ht := (List.chain'_cons'.mp h).2
    show (match rlookup k t with
      | some v' => some v'
      | none => if k = k0 then some v0 else none) =
      (if k = k0 then some v0 else alookup k t)
    rw [ih ht]
    by_cases hk : k = k0
    · subst hk
      rw [alookup_none_of_lt (strictStore_key_bound h)]
    · rw [if_neg hk, if_neg hk]
      cases alookup k t <;> rfl

theorem importStates_self {s : Store} (h : strictStore s) :
    importStates s s = s := by
  apply strictStore_ext (strictStore_importStates s h) h
  intro k
  rw [alookup_importStates, rlookup_eq_alookup k h]
  cases alookup k s <;> rfl

theorem importStates_idem {s : Store} (h : strictStore s)
    (r : List (Int × Rat)) :
    importStates (importStates s r) r = importStates s r := by
  apply strictStore_ext
    (strictStore_importStates r (strictStore_importStates r h))
    (strictStore_importStates r h)
  intro k
  rw [alookup_importStates, alookup_importStates]
  cases rlookup k r <;> rfl

theorem statesOf_runRows : ∀ (t : Rat) (s : Store),
    statesOf (runRows t s) = s := by
  intro t s
  induction s generalizing t with
  | nil => rfl
  | cons a tl ih =>
    obtain ⟨k, v⟩ := a
    simp [runRows, statesOf] at ih ⊢
    exact ih _

theorem recalculate_of_strict {s : Store} (h : strictStore s)
    (hne : s ≠ []) :
    recalculate s = (s, Except.ok (runRows 0 s)) := by
  unfold recalculate
  rw [if_neg hne]
  show (importStates s (statesOf (runRows 0 s)), Except.ok (runRows 0 s)) = _
  rw [statesOf_runRows, importStates_self h]

/-- C8: running backfill plus recompute a second time over the same
date range, with the same source data and starting from the store state
the first run left behind, changes nothing: the second run leaves the
store as it was and emits exactly the first run's row sequence. -/
theorem spec_c8_idempotent (source : Int → Option (List (Int × Rat)))
    (startD endD : Int) (store : Store) (h : strictStore store) :
    downloadHistory source
        (downloadHistory source store startD endD).1 startD endD =
      downloadHistory source store startD endD := by
  have hs1 : strictStore
      (importStates store (statesOf (backfillRows source startD endD))) :=
    strictStore_importStates _ h
  by_cases hnil :
      importStates store (statesOf (backfillRows source startD endD)) = []
  · obtain ⟨hstore, hr⟩ := importStates_eq_nil hnil
    have run1 : downloadHistory source store startD endD =
        ([], Except.error "No statistical data found.") := by
      unfold downloadHistory
      show recalculate
        (importStates store (statesOf (backfillRows source startD endD))) = _
      rw [hnil]
      rfl
    rw [run1]
    unfold downloadHistory
    show recalculate
      (importStates [] (statesOf (backfillRows source startD endD))) = _
    rw [hr]
    rfl
  · have hrec := recalculate_of_strict hs1 hnil
    have run1 : downloadHistory source store startD endD =
        (importStates store (statesOf (backfillRows source startD endD)),
          Except.ok (runRows 0
            (importStates store (statesOf (backfillRows source startD endD))))) := by
      unfold downloadHistory
      exact hrec
    rw [run1]
    unfold downloadHistory
    show recalculate
      (importStates
        (importStates store (statesOf (backfillRows source startD endD)))
        (statesOf (backfillRows source startD endD))) = _
    rw [importStates_idem h (statesOf (backfillRows source startD endD))]
    exact hrec

theorem spec_c8_witness :
    downloadHistory srcW8
        (downloadHistory srcW8 storeW8 0 0).1 0 0 =
      downloadHistory srcW8 storeW8 0 0 :=
  spec_c8_idempotent srcW8 0 0 storeW8
    (by simp [storeW8, strictStore])

/-- C9: the cost-calculation entry point matches the utility-type
string case-insensitively by substring: `"electricity"` and
`"Electricity Meter"` give identical (successful) results, while
`"gas"` fails with the invalid-utility-type error and no cost is
computed. -/
theorem spec_c9_cost_matching (calcCost : Rat → String → Rat) :
    calculateUtilityCost calcCost 100 "electricity" =
      calculateUtilityCost calcCost 100 "Electricity Meter" ∧
    calculateUtilityCost calcCost 100 "electricity" =
      Except.ok (calcCost 100 "Electricity") ∧
    calculateUtilityCost calcCost 100 "gas" =
      Except.error "Meter type not valid." := by
  have h1 : strContainsSub (toLowerStr "electricity") "electric" = true := by
    decide
  have h2 : strContainsSub (toLowerStr "Electricity Meter") "electric" = true := by
    decide
  have h3 : strContainsSub (toLowerStr "gas") "electric" = false := by
    decide
  have h4 : strContainsSub (toLowerStr "gas") "water" = false := by
    decide
  refine ⟨?_, ?_, ?_⟩ <;>
    simp [calculateUtilityCost, h1, h2, h3, h4]

theorem spec_c9_witness :
    calculateUtilityCost (fun c _ => c) 100 "electricity" =
      calculateUtilityCost (fun c _ => c) 100 "Electricity Meter" ∧
    calculateUtilityCost (fun c _ => c) 100 "electricity" =
      Except.ok ((fun (c : Rat) (_ : String) => c) 100 "Electricity") ∧
    calculateUtilityCost (fun c _ => c) 100 "gas" =
      Except.error "Meter type not valid." :=
  spec_c9_cost_matching (fun c _ => c)

theorem svLookup_no_meterType (d : ServiceData)
    (hall : d.all (fun kv => kv.1 == "consumption" || kv.1 == "type") = true) :
    svLookup "meter_type" d = none := by
  induction d with
  | nil => rfl
  | cons a t ih =>
    obtain ⟨k, v⟩ := a
    rw [List.all_cons, Bool.and_eq_true] at hall
    show (if "meter_type" = k then some v else svLookup "meter_type" t) = none
    rw [if_neg ?_, ih hall.2]
    rcases Bool.or_eq_true _ _ |>.mp hall.1 with hk | hk
    · have hke : k = "consumption" := eq_of_beq hk
      subst hke
      decide
    · have hke : k = "type" := eq_of_beq hk
      subst hke
      decide

/-- C10: every service-call payload accepted by the registered
cost-calculation schema (required keys `"consumption"` and `"type"`,
no extras) makes the handler's `data["meter_type"]` lookup fail with a
missing-key error before any utility-type validation or cost
computation, so no schema-valid call ever returns a cost. -/
theorem spec_c10_meter_type_key_error (calcCost : Rat → String → Rat)
    (d : ServiceData) (hd : schemaValid d = true) :
    costServiceCall calcCost d = Except.error "KeyError: meter_type" := by
  unfold schemaValid at hd
  rw [Bool.and_eq_true, Bool.and_eq_true] at hd
  obtain ⟨⟨hcons, _⟩, hall⟩ := hd
  unfold costServiceCall
  rcases hlook : svLookup "consumption" d with _ | v
  · rw [hlook] at hcons
    cases hcons
  · cases v with
    | str s =>
      rw [hlook] at hcons
      cases hcons
    | num q =>
      rw [svLookup_no_meterType d hall]

theorem spec_c10_witness :
    schemaValid [("consumption", SVal.num 100), ("type", SVal.str "electricity")] = true ∧
    costServiceCall (fun c _ => c)
        [("consumption", SVal.num 100), ("type", SVal.str "electricity")] =
      Except.error "KeyError: meter_type" :=
  ⟨by decide,
    spec_c10_meter_type_key_error (fun c _ => c)
      [("consumption", SVal.num 100), ("type", SVal.str "electricity")]
      (by decide)⟩

end HaUsms
